import Mathlib

set_option maxHeartbeats 1000000

/-!
Shallow embedding of `src/BlueprintProfiler/Scripts/localize.py`.

The script has two components:

* `parse_po_file`: applies the Python regex `msgid "([^"]*)"\s+msgstr "([^"]*)"`
  with `re.findall` to the catalog content and builds a dictionary
  (`translations[msgid] = msgstr`, skipping empty `msgid`).
* `convert_loctext_to_bp`: applies `re.sub` with the Python regex
  `LOCTEXT\("([^"]+)",\s*"([^"]+)"\)`, replacing every match by
  `BP_LOCTEXT("{key}", "{chinese}", "{english}")` where the Chinese and
  English texts are dictionary lookups falling back to the call's default
  text, with every quote character replaced by backslash-quote.

Both regexes are deterministic: every greedy piece (`[^"]*`, `[^"]+`,
`\s+`, `\s*`) is built from a character class disjoint from the character
that must follow it, so Python's backtracking engine behaves exactly like
a maximal-munch scanner.  The embedding below implements that scanner over
`List Char`.  `re.findall` and `re.sub` scan left to right, trying the
pattern at every position and resuming after the end of each
(non-overlapping) match; the scan loops are written with a fuel argument
equal to the length of the input, which is always sufficient because each
step consumes at least one character.

Python `\s` (on `str` input) matches spaces, tabs, newlines, carriage
returns, vertical tabs and form feeds; `isPySpace` below covers exactly
this ASCII whitespace set (exotic Unicode whitespace, which `\s` also
accepts, does not occur in any input the claims mention).
-/

/-- Characters matched by Python `\s` (ASCII part). -/
def isPySpace (c : Char) : Bool :=
  c = ' ' || c = '\t' || c = '\n' || c = '\r' || c = '\x0b' || c = '\x0c'

/-- Characters matched by the regex class `[^"]`. -/
def notQuote (c : Char) : Bool :=
  decide (c ≠ '"')

/-- Consume one expected character from the input. -/
def expectChar (c : Char) : List Char → Option (List Char)
  | [] => none
  | d :: rest => if d = c then some rest else none

/-- Consume an expected literal string from the input. -/
def matchLit : List Char → List Char → Option (List Char)
  | [], s => some s
  | c :: cs, s => (expectChar c s).bind (matchLit cs)

/-- A Python dictionary with string keys and values, as an association list
in insertion order with unique keys. -/
abbrev Dict := List (List Char × List Char)

/-- Python `d[k] = v`: overwrite the binding in place, or append a new one. -/
def updAssoc : Dict → List Char → List Char → Dict
  | [], k, v => [(k, v)]
  | p :: rest, k, v => if p.1 = k then (k, v) :: rest else p :: updAssoc rest k v

/-- First binding of a key, as used by Python dictionary lookup (keys of the
dictionaries built here are unique, so first = only). -/
def lookup? : Dict → List Char → Option (List Char)
  | [], _ => none
  | p :: rest, k => if p.1 = k then some p.2 else lookup? rest k

/-- Python `d.get(k, dflt)`. -/
def dictGet (d : Dict) (k dflt : List Char) : List Char :=
  (lookup? d k).getD dflt

/-- Try the catalog-record regex `msgid "([^"]*)"\s+msgstr "([^"]*)"` at the
head of the input; on success return the two captured groups and the rest of
the input after the match. -/
def matchPoAt (s : List Char) : Option ((List Char × List Char) × List Char) :=
  match matchLit ("msgid \"".data) s with
  | none => none
  | some s1 =>
    match expectChar '"' (s1.dropWhile notQuote) with
    | none => none
    | some s2 =>
      if s2.takeWhile isPySpace = [] then none
      else
        match matchLit ("msgstr \"".data) (s2.dropWhile isPySpace) with
        | none => none
        | some s3 =>
          match expectChar '"' (s3.dropWhile notQuote) with
          | none => none
          | some s4 => some ((s1.takeWhile notQuote, s3.takeWhile notQuote), s4)

/-- Try the macro-call regex `LOCTEXT\("([^"]+)",\s*"([^"]+)"\)` at the head
of the input; on success return the key, the default text, and the rest of
the input after the match. -/
def matchLocAt (s : List Char) : Option ((List Char × List Char) × List Char) :=
  match matchLit ("LOCTEXT(\"".data) s with
  | none => none
  | some s1 =>
    if s1.takeWhile notQuote = [] then none
    else
      match expectChar '"' (s1.dropWhile notQuote) with
      | none => none
      | some s2 =>
        match expectChar ',' s2 with
        | none => none
        | some s3 =>
          match expectChar '"' (s3.dropWhile isPySpace) with
          | none => none
          | some s4 =>
            if s4.takeWhile notQuote = [] then none
            else
              match expectChar '"' (s4.dropWhile notQuote) with
              | none => none
              | some s5 =>
                match expectChar ')' s5 with
                | none => none
                | some s6 => some ((s1.takeWhile notQuote, s4.takeWhile notQuote), s6)

/-- The `re.findall` scan loop for the catalog-record regex: try the pattern
at every position, emit the captured groups of each non-overlapping match,
and resume after its end.  `fuel ≥ s.length` always suffices. -/
def poScanFuel : Nat → List Char → List (List Char × List Char)
  | _, [] => []
  | 0, _ :: _ => []
  | fuel + 1, c :: rest =>
    match matchPoAt (c :: rest) with
    | some (p, r) => p :: poScanFuel fuel r
    | none => poScanFuel fuel rest

/-- `re.findall(r'msgid "([^"]*)"\s+msgstr "([^"]*)"', content)`. -/
def poFindAll (content : List Char) : List (List Char × List Char) :=
  poScanFuel content.length content

/-- One iteration of the parsing loop:
`if msgid: translations[msgid] = msgstr`. -/
def poInsert (translations : Dict) (p : List Char × List Char) : Dict :=
  if p.1 = [] then translations else updAssoc translations p.1 p.2

/-- `parse_po_file` of the script, on the content of the file: build the
translations dictionary from the matched records, skipping empty keys;
assignment overwrites, so the last occurrence of a key wins. -/
def parse_po_file (content : List Char) : Dict :=
  (poFindAll content).foldl poInsert []

/-- Python `text.replace('"', '\\"')`: escape every quote character. -/
def escQuote : List Char → List Char
  | [] => []
  | c :: rest => if c = '"' then '\\' :: '"' :: escQuote rest else c :: escQuote rest

/-- `replace_match` of the script: look the key up in both catalogs, falling
back to the call's default text, escape quotes, and build
`BP_LOCTEXT("{key}", "{chinese}", "{english}")`. -/
def replace_match (chinese_translations english_translations : Dict)
    (key default_text : List Char) : List Char :=
  let chinese := dictGet chinese_translations key default_text
  let english := dictGet english_translations key default_text
  "BP_LOCTEXT(\"".data ++ key ++ "\", \"".data ++ escQuote chinese
    ++ "\", \"".data ++ escQuote english ++ "\")".data

/-- The `re.sub` scan loop for the macro-call regex: at each position emit
the replacement of a match and resume after it, or copy one character and
advance.  `fuel ≥ s.length` always suffices. -/
def convertFuel (zh en : Dict) : Nat → List Char → List Char
  | _, [] => []
  | 0, s => s
  | fuel + 1, c :: rest =>
    match matchLocAt (c :: rest) with
    | some (p, r) => replace_match zh en p.1 p.2 ++ convertFuel zh en fuel r
    | none => c :: convertFuel zh en fuel rest

/-- `convert_loctext_to_bp` of the script, on the content of the target
file: rewrite every match of the macro-call pattern. -/
def convert_loctext_to_bp (zh en : Dict) (content : List Char) : List Char :=
  convertFuel zh en content.length content

/-- `True` when the macro-call regex matches at no position of the input. -/
def locMatchFree : List Char → Bool
  | [] => true
  | c :: rest => (matchLocAt (c :: rest)).isNone && locMatchFree rest

/-- Value of the last record carrying a given key, in a list of records. -/
def lastValue (k : List Char) : List (List Char × List Char) → Option (List Char)
  | [] => none
  | p :: rest =>
    match lastValue k rest with
    | some v => some v
    | none => if p.1 = k then some p.2 else none

/-- The keys of a dictionary. -/
def keysOf (d : Dict) : List (List Char) :=
  d.map Prod.fst

/-! ### Lemmas about the scanner combinators -/

theorem expectChar_some {c : Char} {s r : List Char} (h : expectChar c s = some r) :
    s = c :: r := by
  cases s with
  | nil => exact absurd h (by simp [expectChar])
  | cons d rest =>
    by_cases hd : d = c
    · subst hd
      have h2 : some rest = some r := by simpa [expectChar] using h
      cases h2
      rfl
    · simp [expectChar, hd] at h

theorem matchLit_some : ∀ (lit : List Char) {s r : List Char},
    matchLit lit s = some r → s = lit ++ r := by
  intro lit
  induction lit with
  | nil =>
    intro s r h
    have h2 : some s = some r := by simpa [matchLit] using h
    cases h2
    rfl
  | cons c cs ih =>
    intro s r h
    simp only [matchLit] at h
    cases he : expectChar c s with
    | none => rw [he] at h; simp at h
    | some s1 =>
      rw [he] at h
      have h2 : matchLit cs s1 = some r := h
      rw [expectChar_some he, ih h2]
      rfl

theorem dropWhile_length_le (p : Char → Bool) (l : List Char) :
    (l.dropWhile p).length ≤ l.length := by
  induction l with
  | nil => simp
  | cons c rest ih =>
    rw [List.dropWhile_cons]
    split
    · exact Nat.le_trans ih (Nat.le_succ _)
    · exact Nat.le_refl _

/-- Full inversion of a successful match of the macro-call regex: the key and
the default text are non-empty and quote-free, and the match consumed at
least one character. -/
theorem matchLocAt_inv {s k d r : List Char}
    (h : matchLocAt s = some ((k, d), r)) :
    k ≠ [] ∧ d ≠ [] ∧ (∀ c ∈ k, c ≠ '"') ∧ (∀ c ∈ d, c ≠ '"') ∧ r.length < s.length := by
  unfold matchLocAt at h
  split at h
  · simp at h
  next s1 h1 =>
    split at h
    · simp at h
    next hkey =>
      split at h
      · simp at h
      next s2 h2 =>
        split at h
        · simp at h
        next s3 h3 =>
          split at h
          · simp at h
          next s4 h4 =>
            split at h
            · simp at h
            next hdft =>
              split at h
              · simp at h
              next s5 h5 =>
                split at h
                · simp at h
                next s6 h6 =>
                  simp only [Option.some.injEq, Prod.mk.injEq] at h
                  obtain ⟨⟨hk, hd⟩, hr⟩ := h
                  subst hk
                  subst hd
                  subst hr
                  refine ⟨hkey, hdft, ?_, ?_, ?_⟩
                  · intro c hc
                    simpa [notQuote] using List.mem_takeWhile_imp hc
                  · intro c hc
                    simpa [notQuote] using List.mem_takeWhile_imp hc
                  · have e1 : s = "LOCTEXT(\"".data ++ s1 := matchLit_some _ h1
                    have e2 : s1.dropWhile notQuote = '"' :: s2 := expectChar_some h2
                    have e3 : s2 = ',' :: s3 := expectChar_some h3
                    have e4 : s3.dropWhile isPySpace = '"' :: s4 := expectChar_some h4
                    have e5 : s4.dropWhile notQuote = '"' :: s5 := expectChar_some h5
                    have e6 : s5 = ')' :: s6 := expectChar_some h6
                    have L1 : s2.length + 1 ≤ s1.length := by
                      have hl := dropWhile_length_le notQuote s1
                      rw [e2] at hl
                      simpa using hl
                    have L2 : s2.length = s3.length + 1 := by rw [e3]; rfl
                    have L3 : s4.length + 1 ≤ s3.length := by
                      have hl := dropWhile_length_le isPySpace s3
                      rw [e4] at hl
                      simpa using hl
                    have L4 : s5.length + 1 ≤ s4.length := by
                      have hl := dropWhile_length_le notQuote s4
                      rw [e5] at hl
                      simpa using hl
                    have L5 : s5.length = s6.length + 1 := by rw [e6]; rfl
                    have L6 : s.length = 9 + s1.length := by rw [e1, List.length_append]; rfl
                    omega

/-- Full inversion of a successful match of the catalog-record regex: the
input starts with `msgid "<k>"`, then non-empty whitespace, then
`msgstr "<v>"`, and the captured fields are quote-free. -/
theorem matchPoAt_inv {s k v r : List Char}
    (h : matchPoAt s = some ((k, v), r)) :
    ∃ ws, ws ≠ [] ∧ (∀ c ∈ ws, isPySpace c = true) ∧
      (∀ c ∈ k, c ≠ '"') ∧ (∀ c ∈ v, c ≠ '"') ∧
      s = "msgid \"".data ++ k ++ '"' :: (ws ++ "msgstr \"".data ++ v ++ '"' :: r) := by
  unfold matchPoAt at h
  split at h
  · simp at h
  next s1 h1 =>
    split at h
    · simp at h
    next s2 h2 =>
      split at h
      · simp at h
      next hws =>
        split at h
        · simp at h
        next s3 h3 =>
          split at h
          · simp at h
          next s4 h4 =>
            simp only [Option.some.injEq, Prod.mk.injEq] at h
            obtain ⟨⟨hk, hv⟩, hr⟩ := h
            subst hk
            subst hv
            subst hr
            refine ⟨s2.takeWhile isPySpace, hws, ?_, ?_, ?_, ?_⟩
            · intro c hc
              exact List.mem_takeWhile_imp hc
            · intro c hc
              simpa [notQuote] using List.mem_takeWhile_imp hc
            · intro c hc
              simpa [notQuote] using List.mem_takeWhile_imp hc
            · have e1 : s = "msgid \"".data ++ s1 := matchLit_some _ h1
              have e2 : s1.dropWhile notQuote = '"' :: s2 := expectChar_some h2
              have e3 : s2.dropWhile isPySpace = "msgstr \"".data ++ s3 := matchLit_some _ h3
              have e4 : s3.dropWhile notQuote = '"' :: s4 := expectChar_some h4
              have d1 : s1 = s1.takeWhile notQuote ++ '"' :: s2 := by
                conv_lhs => rw [← List.takeWhile_append_dropWhile notQuote s1]
                rw [e2]
              have d2 : s2 = s2.takeWhile isPySpace ++ ("msgstr \"".data ++ s3) := by
                conv_lhs => rw [← List.takeWhile_append_dropWhile isPySpace s2]
                rw [e3]
              have d3 : s3 = s3.takeWhile notQuote ++ '"' :: s4 := by
                conv_lhs => rw [← List.takeWhile_append_dropWhile notQuote s3]
                rw [e4]
              conv_lhs => rw [e1, d1, d2, d3]
              simp

/-- A successful match of the macro-call regex consumes at least one
character. -/
theorem matchLocAt_some_lt {s : List Char} {x : (List Char × List Char) × List Char}
    (h : matchLocAt s = some x) : x.2.length < s.length := by
  obtain ⟨⟨k, d⟩, r⟩ := x
  exact (matchLocAt_inv h).2.2.2.2

/-- A successful match of the catalog-record regex consumes at least one
character. -/

theorem matchPoAt_some_lt {s : List Char} {x : (List Char × List Char) × List Char}
    (h : matchPoAt s = some x) : x.2.length < s.length := by
  obtain ⟨⟨k, v⟩, r⟩ := x
  obtain ⟨ws, _, _, _, _, hs⟩ := matchPoAt_inv h
  subst hs
  simp [List.length_append]
  omega

/-! ### Unfolding equations for the scan loops -/

theorem convertFuel_cons_some {zh en : Dict} {c : Char} {rest : List Char}
    {p : List Char × List Char} {r : List Char} (fuel : Nat)
    (hm : matchLocAt (c :: rest) = some (p, r)) :
    convertFuel zh en (fuel + 1) (c :: rest)
      = replace_match zh en p.1 p.2 ++ convertFuel zh en fuel r := by
  simp only [convertFuel, hm]

theorem convertFuel_cons_none {zh en : Dict} {c : Char} {rest : List Char} (fuel : Nat)
    (hm : matchLocAt (c :: rest) = none) :
    convertFuel zh en (fuel + 1) (c :: rest) = c :: convertFuel zh en fuel rest := by
  simp only [convertFuel, hm]

theorem convertFuel_irrel (zh en : Dict) :
    ∀ (f1 f2 : Nat) (s : List Char), s.length ≤ f1 → s.length ≤ f2 →
      convertFuel zh en f1 s = convertFuel zh en f2 s := by
  intro f1
  induction f1 with
  | zero =>
    intro f2 s h1 h2
    have hs : s = [] := List.length_eq_zero.mp (Nat.le_zero.mp h1)
    subst hs
    cases f2 <;> rfl
  | succ f ih =>
    intro f2 s h1 h2
    cases s with
    | nil => cases f2 <;> rfl
    | cons c rest =>
      cases f2 with
      | zero => exact absurd h2 (by simp)
      | succ f2' =>
        cases hm : matchLocAt (c :: rest) with
        | none =>
          rw [convertFuel_cons_none f hm, convertFuel_cons_none f2' hm]
          have hr1 : rest.length ≤ f := by simp [List.length_cons] at h1; omega
          have hr2 : rest.length ≤ f2' := by simp [List.length_cons] at h2; omega
          rw [ih f2' rest hr1 hr2]
        | some pr =>
          obtain ⟨p, r⟩ := pr
          rw [convertFuel_cons_some f hm, convertFuel_cons_some f2' hm]
          have hlt : r.length < rest.length + 1 := by
            simpa using matchLocAt_some_lt hm
          have hr1 : r.length ≤ f := by simp [List.length_cons] at h1; omega
          have hr2 : r.length ≤ f2' := by simp [List.length_cons] at h2; omega
          rw [ih f2' r hr1 hr2]

theorem matchLocAt_nil : matchLocAt ([] : List Char) = none := by decide

/-- Step equation of the rewriter at a match. -/
theorem convert_eq_match {zh en : Dict} {s : List Char}
    {p : List Char × List Char} {r : List Char}
    (hm : matchLocAt s = some (p, r)) :
    convert_loctext_to_bp zh en s
      = replace_match zh en p.1 p.2 ++ convert_loctext_to_bp zh en r := by
  cases s with
  | nil => rw [matchLocAt_nil] at hm; exact Option.noConfusion hm
  | cons c rest =>
    show convertFuel zh en (c :: rest).length (c :: rest)
      = replace_match zh en p.1 p.2 ++ convertFuel zh en r.length r
    rw [List.length_cons, convertFuel_cons_some rest.length hm]
    have hlt : r.length < rest.length + 1 := by simpa using matchLocAt_some_lt hm
    rw [convertFuel_irrel zh en rest.length r.length r (by omega) (Nat.le_refl _)]

/-- Step equation of the rewriter at a position with no match. -/
theorem convert_eq_nomatch {zh en : Dict} {c : Char} {rest : List Char}
    (hm : matchLocAt (c :: rest) = none) :
    convert_loctext_to_bp zh en (c :: rest) = c :: convert_loctext_to_bp zh en rest := by
  show convertFuel zh en (c :: rest).length (c :: rest) = c :: convertFuel zh en rest.length rest
  rw [List.length_cons, convertFuel_cons_none rest.length hm]

/-- On match-free content the rewriter is the identity. -/
theorem convert_of_locMatchFree (zh en : Dict) :
    ∀ s : List Char, locMatchFree s = true → convert_loctext_to_bp zh en s = s := by
  intro s
  induction s with
  | nil => intro _; rfl
  | cons c rest ih =>
    intro h
    simp only [locMatchFree, Bool.and_eq_true, Option.isNone_iff_eq_none] at h
    rw [convert_eq_nomatch h.1, ih h.2]

theorem poScanFuel_cons_some {c : Char} {rest : List Char}
    {p : List Char × List Char} {r : List Char} (fuel : Nat)
    (hm : matchPoAt (c :: rest) = some (p, r)) :
    poScanFuel (fuel + 1) (c :: rest) = p :: poScanFuel fuel r := by
  simp only [poScanFuel, hm]

theorem poScanFuel_cons_none {c : Char} {rest : List Char} (fuel : Nat)
    (hm : matchPoAt (c :: rest) = none) :
    poScanFuel (fuel + 1) (c :: rest) = poScanFuel fuel rest := by
  simp only [poScanFuel, hm]

/-- Every record produced by the scan loop comes from a successful match of
the catalog-record regex. -/
theorem poScanFuel_mem : ∀ (fuel : Nat) (s : List Char) (p : List Char × List Char),
    p ∈ poScanFuel fuel s → ∃ t r, matchPoAt t = some (p, r) := by
  intro fuel
  induction fuel with
  | zero =>
    intro s p hp
    cases s with
    | nil => simp [poScanFuel] at hp
    | cons c rest => simp [poScanFuel] at hp
  | succ f ih =>
    intro s p hp
    cases s with
    | nil => simp [poScanFuel] at hp
    | cons c rest =>
      cases hm : matchPoAt (c :: rest) with
      | none =>
        rw [poScanFuel_cons_none f hm] at hp
        exact ih rest p hp
      | some pr =>
        obtain ⟨q, r⟩ := pr
        rw [poScanFuel_cons_some f hm] at hp
        rcases List.mem_cons.mp hp with h | h
        · subst h
          exact ⟨c :: rest, r, hm⟩
        · exact ih r p h

/-! ### Lemmas about the dictionary operations -/

theorem lookup?_updAssoc (d : Dict) (a v k : List Char) :
    lookup? (updAssoc d a v) k = if a = k then some v else lookup? d k := by
  induction d with
  | nil => simp [updAssoc, lookup?]
  | cons p rest ih =>
    by_cases hp : p.1 = a
    · simp only [updAssoc, if_pos hp, lookup?]
      by_cases hak : a = k
      · simp [hak]
      · have hpk : ¬ p.1 = k := by rw [hp]; exact hak
        simp [hak, hpk]
    · simp only [updAssoc, if_neg hp, lookup?]
      by_cases hpk : p.1 = k
      · have hak : ¬ a = k := fun hh => hp (hpk.trans hh.symm)
        simp [hpk, hak]
      · simp [hpk, ih]

theorem mem_updAssoc {d : Dict} {a v : List Char} {p : List Char × List Char}
    (h : p ∈ updAssoc d a v) : p = (a, v) ∨ p ∈ d := by
  induction d with
  | nil =>
    simp [updAssoc] at h
    exact Or.inl h
  | cons q rest ih =>
    simp only [updAssoc] at h
    split at h
    · rcases List.mem_cons.mp h with h | h
      · exact Or.inl h
      · exact Or.inr (List.mem_cons_of_mem _ h)
    · rcases List.mem_cons.mp h with h | h
      · exact Or.inr (h ▸ List.mem_cons_self _ _)
      · rcases ih h with h | h
        · exact Or.inl h
        · exact Or.inr (List.mem_cons_of_mem _ h)

theorem lookup?_mem : ∀ {d : Dict} {k v : List Char}, lookup? d k = some v → (k, v) ∈ d := by
  intro d
  induction d with
  | nil => intro k v h; simp [lookup?] at h
  | cons p rest ih =>
    intro k v h
    simp only [lookup?] at h
    split at h
    · next hp =>
      have h2 : some p.2 = some v := h
      cases h2
      have : (k, p.2) = p := by
        rw [← hp]
      rw [this]
      exact List.mem_cons_self _ _
    · exact List.mem_cons_of_mem _ (ih h)

theorem keysOf_cons (q : List Char × List Char) (l : Dict) :
    keysOf (q :: l) = q.1 :: keysOf l := rfl

theorem keysOf_updAssoc_mem : ∀ (d : Dict) (a v : List Char), a ∈ keysOf d →
    keysOf (updAssoc d a v) = keysOf d := by
  intro d a v
  induction d with
  | nil => intro h; simp [keysOf] at h
  | cons q rest ih =>
    intro h
    simp only [updAssoc]
    split
    · next hq => rw [keysOf_cons, keysOf_cons, hq]
    · next hq =>
      have ha : a ∈ keysOf rest := by
        rw [keysOf_cons, List.mem_cons] at h
        rcases h with h | h
        · exact absurd h.symm hq
        · exact h
      rw [keysOf_cons, keysOf_cons, ih ha]

theorem keysOf_updAssoc_not_mem : ∀ (d : Dict) (a v : List Char), a ∉ keysOf d →
    keysOf (updAssoc d a v) = keysOf d ++ [a] := by
  intro d a v
  induction d with
  | nil => intro _; simp [updAssoc, keysOf]
  | cons q rest ih =>
    intro h
    have hq : ¬ q.1 = a := by
      intro hh
      refine h ?_
      rw [keysOf_cons, hh]
      exact List.mem_cons_self _ _
    have ha : a ∉ keysOf rest := by
      intro hh
      exact h (by rw [keysOf_cons]; exact List.mem_cons_of_mem _ hh)
    simp only [updAssoc, if_neg hq]
    rw [keysOf_cons, keysOf_cons, ih ha, List.cons_append]

theorem nodup_keysOf_updAssoc {d : Dict} (a v : List Char) (hd : (keysOf d).Nodup) :
    (keysOf (updAssoc d a v)).Nodup := by
  by_cases ha : a ∈ keysOf d
  · rw [keysOf_updAssoc_mem d a v ha]
    exact hd
  · rw [keysOf_updAssoc_not_mem d a v ha]
    rw [List.nodup_append]
    refine ⟨hd, List.nodup_singleton a, ?_⟩
    intro x hx hx1
    rw [List.mem_singleton] at hx1
    subst hx1
    exact ha hx

/-! ### Lemmas about the parsing fold -/

theorem nodup_keysOf_poInsert {d : Dict} (p : List Char × List Char)
    (hd : (keysOf d).Nodup) : (keysOf (poInsert d p)).Nodup := by
  unfold poInsert
  split
  · exact hd
  · exact nodup_keysOf_updAssoc _ _ hd

theorem nodup_keysOf_foldl_poInsert :
    ∀ (l : List (List Char × List Char)) (d : Dict),
      (keysOf d).Nodup → (keysOf (l.foldl poInsert d)).Nodup := by
  intro l
  induction l with
  | nil => intro d hd; exact hd
  | cons p rest ih =>
    intro d hd
    rw [List.foldl_cons]
    exact ih _ (nodup_keysOf_poInsert p hd)

theorem lookup?_foldl_poInsert_of_none {k : List Char} :
    ∀ (l : List (List Char × List Char)) (d : Dict), lastValue k l = none →
      lookup? (l.foldl poInsert d) k = lookup? d k := by
  intro l
  induction l with
  | nil => intro d _; rfl
  | cons p rest ih =>
    intro d hl
    cases hrest : lastValue k rest with
    | some v => simp [lastValue, hrest] at hl
    | none =>
      simp only [lastValue, hrest] at hl
      have hpk : ¬ p.1 = k := by
        intro hh
        rw [if_pos hh] at hl
        exact Option.noConfusion hl
      rw [List.foldl_cons, ih _ hrest]
      unfold poInsert
      split
      · rfl
      · rw [lookup?_updAssoc, if_neg hpk]

theorem lookup?_foldl_poInsert_of_some {k : List Char} (hk : k ≠ []) :
    ∀ (l : List (List Char × List Char)) (d : Dict) (v : List Char),
      lastValue k l = some v → lookup? (l.foldl poInsert d) k = some v := by
  intro l
  induction l with
  | nil => intro d v h; simp [lastValue] at h
  | cons p rest ih =>
    intro d v hl
    rw [List.foldl_cons]
    cases hrest : lastValue k rest with
    | some w =>
      have hv : w = v := by
        simp only [lastValue, hrest] at hl
        exact Option.some.inj hl
      subst hv
      exact ih _ _ hrest
    | none =>
      simp only [lastValue, hrest] at hl
      have hpk : p.1 = k := by
        by_cases hh : p.1 = k
        · exact hh
        · rw [if_neg hh] at hl
          exact absurd hl (by simp)
      have hpv : p.2 = v := by
        rw [if_pos hpk] at hl
        exact Option.some.inj hl
      rw [lookup?_foldl_poInsert_of_none rest _ hrest]
      unfold poInsert
      have hp1 : ¬ p.1 = [] := by rw [hpk]; exact hk
      rw [if_neg hp1, lookup?_updAssoc, if_pos hpk, hpv]

theorem lookup?_foldl_poInsert_nil_key :
    ∀ (l : List (List Char × List Char)) (d : Dict), lookup? d [] = none →
      lookup? (l.foldl poInsert d) [] = none := by
  intro l
  induction l with
  | nil => intro d hd; exact hd
  | cons p rest ih =>
    intro d hd
    rw [List.foldl_cons]
    refine ih _ ?_
    unfold poInsert
    split
    · exact hd
    · next hp =>
      rw [lookup?_updAssoc, if_neg hp]
      exact hd

theorem mem_foldl_poInsert :
    ∀ (l : List (List Char × List Char)) (d : Dict) (p : List Char × List Char),
      p ∈ l.foldl poInsert d → p ∈ d ∨ p ∈ l := by
  intro l
  induction l with
  | nil => intro d p hp; exact Or.inl hp
  | cons q rest ih =>
    intro d p hp
    rw [List.foldl_cons] at hp
    rcases ih _ p hp with h | h
    · unfold poInsert at h
      split at h
      · exact Or.inl h
      · rcases mem_updAssoc h with h | h
        · right
          rw [h]
          exact List.mem_cons_self _ _
        · exact Or.inl h
    · exact Or.inr (List.mem_cons_of_mem _ h)

/-! ### Lemmas about quote escaping -/

theorem escQuote_of_not_mem {v : List Char} (h : '"' ∉ v) : escQuote v = v := by
  induction v with
  | nil => rfl
  | cons c rest ih =>
    have hc : ¬ c = '"' := fun hh => h (hh ▸ List.mem_cons_self _ _)
    have hrest : '"' ∉ rest := fun hh => h (List.mem_cons_of_mem _ hh)
    simp only [escQuote, if_neg hc, ih hrest]

/-- Every entry of a parsed catalog has a quote-free key and a quote-free
value. -/
theorem parse_po_file_quote_free {content : List Char} {p : List Char × List Char}
    (hp : p ∈ parse_po_file content) : '"' ∉ p.1 ∧ '"' ∉ p.2 := by
  rcases mem_foldl_poInsert _ _ _ hp with h | h
  · simp at h
  · obtain ⟨t, r, hm⟩ := poScanFuel_mem _ _ _ h
    obtain ⟨q1, q2⟩ := p
    obtain ⟨ws, _, _, hk, hv, _⟩ := matchPoAt_inv hm
    constructor
    · intro hq
      exact hk '"' hq rfl
    · intro hq
      exact hv '"' hq rfl

/-- The value substituted for a key is either a catalog value or the default
text. -/
theorem dictGet_cases (d : Dict) (k dflt : List Char) :
    (k, dictGet d k dflt) ∈ d ∨ dictGet d k dflt = dflt := by
  unfold dictGet
  cases hl : lookup? d k with
  | none => exact Or.inr rfl
  | some v => exact Or.inl (lookup?_mem hl)

/-- Claim C1: for every occurrence of the macro-call pattern
`LOCTEXT("K", "D")` in the target content, the rewriter replaces it with
`BP_LOCTEXT("K", "Z", "E")`, where Z is the Chinese catalog value for K (or
D if K is absent, i.e. `(lookup? zh k).getD d`) and E is the English catalog
value for K (or D if K is absent), each emitted through the quote-escaping
step. -/
theorem C1_rewrite_occurrence (zh en : Dict) (s k d r : List Char)
    (hm : matchLocAt s = some ((k, d), r)) :
    convert_loctext_to_bp zh en s
      = replace_match zh en k d ++ convert_loctext_to_bp zh en r
    ∧ replace_match zh en k d
      = "BP_LOCTEXT(\"".data ++ k ++ "\", \"".data
          ++ escQuote ((lookup? zh k).getD d) ++ "\", \"".data
          ++ escQuote ((lookup? en k).getD d) ++ "\")".data := by
  exact ⟨convert_eq_match hm, rfl⟩

theorem C1_witness :
    convert_loctext_to_bp [(['K'], ['Z'])] [] ("LOCTEXT(\"K\", \"D\")x".data)
      = replace_match [(['K'], ['Z'])] [] ['K'] ['D']
          ++ convert_loctext_to_bp [(['K'], ['Z'])] [] ['x']
    ∧ replace_match [(['K'], ['Z'])] [] ['K'] ['D']
      = "BP_LOCTEXT(\"".data ++ ['K'] ++ "\", \"".data
          ++ escQuote ((lookup? [(['K'], ['Z'])] ['K']).getD ['D']) ++ "\", \"".data
          ++ escQuote ((lookup? [] ['K']).getD ['D']) ++ "\")".data :=
  C1_rewrite_occurrence [(['K'], ['Z'])] [] _ ['K'] ['D'] ['x'] (by decide)

/-- Claim C2: parsing well-formed catalog content produces a mapping in
which every key appears exactly once (the key list has no duplicates), and
the value bound to a non-empty key is the value of the last matched record
carrying that key (last write wins). -/
theorem C2_parse_last_write_wins (content k : List Char) (hk : k ≠ []) :
    (keysOf (parse_po_file content)).Nodup
    ∧ lookup? (parse_po_file content) k = lastValue k (poFindAll content) := by
  constructor
  · exact nodup_keysOf_foldl_poInsert _ [] List.nodup_nil
  · cases hl : lastValue k (poFindAll content) with
    | none => exact lookup?_foldl_poInsert_of_none _ [] hl
    | some v => exact lookup?_foldl_poInsert_of_some hk _ [] v hl

theorem C2_witness :
    (keysOf (parse_po_file ("msgid \"A\"\nmsgstr \"B\"\nmsgid \"A\"\nmsgstr \"C\"\n".data))).Nodup
    ∧ lookup? (parse_po_file ("msgid \"A\"\nmsgstr \"B\"\nmsgid \"A\"\nmsgstr \"C\"\n".data)) ['A']
      = lastValue ['A'] (poFindAll ("msgid \"A\"\nmsgstr \"B\"\nmsgid \"A\"\nmsgstr \"C\"\n".data)) :=
  C2_parse_last_write_wins _ ['A'] (by decide)

/-- Claim C3 counterexample: a target occurrence `LOCTEXT("K", "a"b")`
whose default text embeds a quote character is not matched by the rewrite
pattern, so the rewriter leaves it unchanged, introduces no backslash, and
does not produce the escaped form the claim describes. -/
theorem C3_counterexample :
    convert_loctext_to_bp [] [] ("LOCTEXT(\"K\", \"a\"b\")".data)
      = "LOCTEXT(\"K\", \"a\"b\")".data
    ∧ '\\' ∉ convert_loctext_to_bp [] [] ("LOCTEXT(\"K\", \"a\"b\")".data)
    ∧ convert_loctext_to_bp [] [] ("LOCTEXT(\"K\", \"a\"b\")".data)
      ≠ "BP_LOCTEXT(\"K\", \"a\\\"b\", \"a\\\"b\")".data := by
  decide

/-- Claim C3 amended: the rewriter does pass both substituted values
through the quote-escaping step, which turns each quote into
backslash-quote; but a matched default text can never contain a quote
character (the pattern excludes quotes from the quoted fields), so a target
occurrence whose default text embeds a quote is never matched, and for
matched occurrences the escaping never fires on the default text. -/
theorem C3_escape_amended (zh en : Dict) (s k d r : List Char)
    (hm : matchLocAt s = some ((k, d), r)) :
    '"' ∉ d
    ∧ replace_match zh en k d
      = "BP_LOCTEXT(\"".data ++ k ++ "\", \"".data ++ escQuote (dictGet zh k d)
          ++ "\", \"".data ++ escQuote (dictGet en k d) ++ "\")".data
    ∧ escQuote ['a', '"', 'b'] = ['a', '\\', '"', 'b'] := by
  obtain ⟨_, _, _, hdq, _⟩ := matchLocAt_inv hm
  exact ⟨fun hq => hdq '"' hq rfl, rfl, by decide⟩

theorem C3_witness :
    '"' ∉ ['D']
    ∧ replace_match [] [] ['K'] ['D']
      = "BP_LOCTEXT(\"".data ++ ['K'] ++ "\", \"".data ++ escQuote (dictGet [] ['K'] ['D'])
          ++ "\", \"".data ++ escQuote (dictGet [] ['K'] ['D']) ++ "\")".data
    ∧ escQuote ['a', '"', 'b'] = ['a', '\\', '"', 'b'] :=
  C3_escape_amended [] [] ("LOCTEXT(\"K\", \"D\")".data) ['K'] ['D'] [] (by decide)

/-- Claim C4 counterexample: rewriting is not always a no-op on
already-converted content.  With empty catalogs, converting
`LOCTEXT("K", "LOCTEXT(")Q", "W")` yields text in which the original
pattern matches again (the rewritten default text `LOCTEXT(` combines with
the template quotes and the trailing text), so a second run changes the
content. -/
theorem C4_counterexample :
    convert_loctext_to_bp [] []
        (convert_loctext_to_bp [] [] ("LOCTEXT(\"K\", \"LOCTEXT(\")Q\", \"W\")".data))
      ≠ convert_loctext_to_bp [] [] ("LOCTEXT(\"K\", \"LOCTEXT(\")Q\", \"W\")".data) := by
  decide

/-- Claim C4 amended: the second run is a no-op exactly in the intended
situation the spec describes, namely when the converted content contains no
further occurrence of the `LOCTEXT` pattern; `rewrite (rewrite content) =
rewrite content` holds under that condition but not universally. -/
theorem C4_second_run_noop (zh en : Dict) (content : List Char)
    (h : locMatchFree (convert_loctext_to_bp zh en content) = true) :
    convert_loctext_to_bp zh en (convert_loctext_to_bp zh en content)
      = convert_loctext_to_bp zh en content :=
  convert_of_locMatchFree zh en _ h

theorem C4_witness :
    convert_loctext_to_bp [(['K'], ['V'])] []
        (convert_loctext_to_bp [(['K'], ['V'])] [] ("aLOCTEXT(\"K\", \"D\")b".data))
      = convert_loctext_to_bp [(['K'], ['V'])] [] ("aLOCTEXT(\"K\", \"D\")b".data) :=
  C4_second_run_noop [(['K'], ['V'])] [] _ (by decide)

/-- Claim C5: the catalog parser only extracts records in which the
msgid field and the msgstr field are separated solely by (non-empty)
whitespace: every successful match decomposes the input into
`msgid "<k>"`, whitespace, `msgstr "<v>"`, rest.  A record with
non-whitespace text (for example a comment line) between the two fields is
not matched and contributes no entry to the mapping. -/
theorem C5_adjacent_records :
    (∀ s k v r : List Char, matchPoAt s = some ((k, v), r) →
      ∃ ws, ws ≠ [] ∧ (∀ c ∈ ws, isPySpace c = true) ∧
        s = "msgid \"".data ++ k ++ '"' :: (ws ++ "msgstr \"".data ++ v ++ '"' :: r))
    ∧ parse_po_file ("msgid \"A\"\n# note\nmsgstr \"B\"\n".data) = [] := by
  constructor
  · intro s k v r hm
    obtain ⟨ws, h1, h2, _, _, h5⟩ := matchPoAt_inv hm
    exact ⟨ws, h1, h2, h5⟩
  · decide

theorem C5_witness :
    ∃ ws, ws ≠ [] ∧ (∀ c ∈ ws, isPySpace c = true) ∧
      "msgid \"A\" msgstr \"B\"".data
        = "msgid \"".data ++ ['A'] ++ '"' :: (ws ++ "msgstr \"".data ++ ['B'] ++ '"' :: []) :=
  C5_adjacent_records.1 _ ['A'] ['B'] [] (by decide)

/-- Claim C6: parsing is total and never reports an error; records whose
key is the empty string are discarded (the empty string is never a key of
the resulting mapping), and malformed or partial records (a msgid with no
following msgstr) are silently skipped, contributing nothing. -/
theorem C6_parse_never_fails :
    (∀ content : List Char, lookup? (parse_po_file content) [] = none)
    ∧ parse_po_file ("msgid \"Orphan\" ".data) = []
    ∧ parse_po_file ("msgid \"\"\nmsgstr \"header\"\n".data) = [] := by
  refine ⟨?_, by decide, by decide⟩
  intro content
  exact lookup?_foldl_poInsert_nil_key _ [] rfl

/-- Claim C7: concrete scenarios.  With a Chinese catalog containing
`msgid "Hello" / msgstr "你好"` and an English catalog lacking the key,
`LOCTEXT("Hello", "Hello")` rewrites to
`BP_LOCTEXT("Hello", "你好", "Hello")`; and when neither catalog has the
key, `LOCTEXT("Missing", "Fallback")` rewrites to
`BP_LOCTEXT("Missing", "Fallback", "Fallback")`. -/
theorem C7_concrete_scenarios :
    convert_loctext_to_bp
        (parse_po_file "msgid \"Hello\"\nmsgstr \"你好\"\n".data)
        (parse_po_file "".data)
        ("LOCTEXT(\"Hello\", \"Hello\")".data)
      = "BP_LOCTEXT(\"Hello\", \"你好\", \"Hello\")".data
    ∧ convert_loctext_to_bp
        (parse_po_file "msgid \"Hello\"\nmsgstr \"你好\"\n".data)
        (parse_po_file "".data)
        ("LOCTEXT(\"Missing\", \"Fallback\")".data)
      = "BP_LOCTEXT(\"Missing\", \"Fallback\", \"Fallback\")".data := by
  decide

/-- Claim C8: every key and value of a parsed catalog is quote-free, and
every matched key and default text is quote-free; consequently the
quote-escaping step never changes a substituted value, and the three string
literals of every rewritten occurrence contain no quote character. -/
theorem C8_quote_free_invariant (zhc enc s k d r : List Char)
    (hm : matchLocAt s = some ((k, d), r)) :
    (∀ p ∈ parse_po_file zhc, '"' ∉ p.1 ∧ '"' ∉ p.2)
    ∧ '"' ∉ k ∧ '"' ∉ d
    ∧ escQuote (dictGet (parse_po_file zhc) k d) = dictGet (parse_po_file zhc) k d
    ∧ escQuote (dictGet (parse_po_file enc) k d) = dictGet (parse_po_file enc) k d
    ∧ '"' ∉ dictGet (parse_po_file zhc) k d
    ∧ '"' ∉ dictGet (parse_po_file enc) k d := by
  obtain ⟨_, _, hkq, hdq, _⟩ := matchLocAt_inv hm
  have hk : '"' ∉ k := fun hq => hkq '"' hq rfl
  have hd : '"' ∉ d := fun hq => hdq '"' hq rfl
  have hzh : '"' ∉ dictGet (parse_po_file zhc) k d := by
    rcases dictGet_cases (parse_po_file zhc) k d with h | h
    · exact (parse_po_file_quote_free h).2
    · rw [h]; exact hd
  have hen : '"' ∉ dictGet (parse_po_file enc) k d := by
    rcases dictGet_cases (parse_po_file enc) k d with h | h
    · exact (parse_po_file_quote_free h).2
    · rw [h]; exact hd
  exact ⟨fun p hp => parse_po_file_quote_free hp, hk, hd,
    escQuote_of_not_mem hzh, escQuote_of_not_mem hen, hzh, hen⟩

theorem C8_witness :
    (∀ p ∈ parse_po_file ("msgid \"K\"\nmsgstr \"V\"\n".data), '"' ∉ p.1 ∧ '"' ∉ p.2)
    ∧ '"' ∉ ['K'] ∧ '"' ∉ ['D']
    ∧ escQuote (dictGet (parse_po_file ("msgid \"K\"\nmsgstr \"V\"\n".data)) ['K'] ['D'])
      = dictGet (parse_po_file ("msgid \"K\"\nmsgstr \"V\"\n".data)) ['K'] ['D']
    ∧ escQuote (dictGet (parse_po_file ("".data)) ['K'] ['D'])
      = dictGet (parse_po_file ("".data)) ['K'] ['D']
    ∧ '"' ∉ dictGet (parse_po_file ("msgid \"K\"\nmsgstr \"V\"\n".data)) ['K'] ['D']
    ∧ '"' ∉ dictGet (parse_po_file ("".data)) ['K'] ['D'] :=
  C8_quote_free_invariant ("msgid \"K\"\nmsgstr \"V\"\n".data) ("".data)
    ("LOCTEXT(\"K\", \"D\")".data) ['K'] ['D'] [] (by decide)

/-- Claim C9: a macro call whose key or default text is empty, such as
`LOCTEXT("", "D")` or `LOCTEXT("K", "")`, is not matched by the rewrite
pattern and appears unchanged in the output; every matched key and default
text is non-empty. -/
theorem C9_empty_fields_unmatched :
    (∀ zh en : Dict,
      convert_loctext_to_bp zh en ("LOCTEXT(\"\", \"D\")".data) = "LOCTEXT(\"\", \"D\")".data
      ∧ convert_loctext_to_bp zh en ("LOCTEXT(\"K\", \"\")".data) = "LOCTEXT(\"K\", \"\")".data)
    ∧ (∀ s k d r : List Char, matchLocAt s = some ((k, d), r) → k ≠ [] ∧ d ≠ []) := by
  constructor
  · intro zh en
    constructor
    · exact convert_of_locMatchFree zh en _ (by decide)
    · exact convert_of_locMatchFree zh en _ (by decide)
  · intro s k d r hm
    obtain ⟨h1, h2, _⟩ := matchLocAt_inv hm
    exact ⟨h1, h2⟩

theorem C9_witness : (['K'] : List Char) ≠ [] ∧ (['D'] : List Char) ≠ [] :=
  C9_empty_fields_unmatched.2 ("LOCTEXT(\"K\", \"D\")".data) ['K'] ['D'] [] (by decide)

/-- Claim C10: frame property of the rewrite pass.  When the content
contains no match the transformation is the identity, and at any position
where the pattern does not match the character is copied unchanged, in
order, into the output. -/
theorem C10_frame :
    (∀ (zh en : Dict) (s : List Char), locMatchFree s = true →
      convert_loctext_to_bp zh en s = s)
    ∧ (∀ (zh en : Dict) (c : Char) (rest : List Char), matchLocAt (c :: rest) = none →
      convert_loctext_to_bp zh en (c :: rest) = c :: convert_loctext_to_bp zh en rest) := by
  constructor
  · intro zh en s h
    exact convert_of_locMatchFree zh en s h
  · intro zh en c rest hm
    exact convert_eq_nomatch hm

theorem C10_witness :
    convert_loctext_to_bp [] [] ("no macro here".data) = "no macro here".data :=
  C10_frame.1 [] [] _ (by decide)
